import Mathlib

/-!
Verification of the argument-resolution and flag-merging engine of the
pressly/cli library (parse.go, command.go), as a shallow embedding.

Commands form a tree; `Parse` walks a token list to resolve a command path,
merges the flag namespaces along the path, runs a flags-anywhere parse,
enforces required flags and assembles the positional arguments.  Go's
in-place mutation of `root.state` and of the shared `flag.Value` cells is
modelled by explicit state passing: a `Store` maps a cell key (the owning
command's name path plus the flag's long name) to the current string value,
and `CLIState` carries the resolved path, positional args and the store
across repeated `Parse` calls against the same tree.
-/

namespace CLI

/-- A flag declaration in a command's flag set: long name, default value
(rendered as a string) and whether the value is boolean-like (a flag whose
`flag.Value` has an `IsBoolFlag` method, so it never consumes the next
token as its value). -/
structure FlagSpec where
  name : String
  defValue : String
  isBool : Bool
deriving Repr, DecidableEq

/-- Per-flag metadata overlay (`FlagMetadata` in command.go / parse.go):
required marker and optional single-letter short alias; an absent alias is
the empty string, as in Go. -/
structure FlagMetadata where
  name : String
  required : Bool
  short : String
deriving Repr, DecidableEq

/-- A command node (`Command` in command.go): name, owned flag set, flag
metadata, subcommands, and whether an `Exec` handler is defined. -/
inductive Command where
  | mk (name : String) (flags : List FlagSpec) (flagsMetadata : List FlagMetadata)
       (subs : List Command) (hasExec : Bool)

def Command.name : Command → String
  | .mk n _ _ _ _ => n

def Command.flags : Command → List FlagSpec
  | .mk _ f _ _ _ => f

def Command.flagsMetadata : Command → List FlagMetadata
  | .mk _ _ m _ _ => m

def Command.subs : Command → List Command
  | .mk _ _ _ s _ => s

def Command.hasExec : Command → Bool
  | .mk _ _ _ _ e => e

/-- `strings.TrimLeft(arg, "-")`: drop every leading dash. -/
def trimDashes (s : String) : String :=
  String.mk (s.toList.dropWhile (· == '-'))

/-- ASCII lowercasing of one character. -/
def lowerCh (c : Char) : Char :=
  if 'A' ≤ c && c ≤ 'Z' then Char.ofNat (c.toNat + 32) else c

/-- `strings.EqualFold` restricted to ASCII case folding, as used by
`findSubCommand` and `collectArgs` on command names. -/
def equalFold (a b : String) : Bool :=
  a.toList.map lowerCh == b.toList.map lowerCh

/-- `strings.HasPrefix(s, "-")`: the first character is a dash. -/
def startsWithDash (s : String) : Bool :=
  match s.toList with
  | '-' :: _ => true
  | _ => false

/-- `strings.Contains(s, "=")`. -/
def containsEq (s : String) : Bool :=
  s.toList.any (fun c => c == '=')

/-- `%q` on a plain string: surrounding double quotes. -/
def quote (s : String) : String :=
  "\"" ++ s ++ "\""

def isAsciiLetter (c : Char) : Bool :=
  ('a' ≤ c && c ≤ 'z') || ('A' ≤ c && c ≤ 'Z')

def isNameChar (c : Char) : Bool :=
  isAsciiLetter c || ('0' ≤ c && c ≤ '9') || c == '_' || c == '-'

/-- The regular expression for command names in parse.go:
`^[a-zA-Z][a-zA-Z0-9_-]*$`. -/
def validName (s : String) : Bool :=
  match s.toList with
  | [] => false
  | c :: cs => isAsciiLetter c && cs.all isNameChar

/-- Error outcomes of `Parse`, one constructor per error category produced
in parse.go; `help` is the distinguished `ErrHelp` sentinel. -/
inductive PError where
  | nilRoot
  | validation (msg : String)
  | unknownCommand (tok : String)
  | help
  | flagParse (msg : String)
  | requiredInternal (msg : String)
  | missingRequired (msg : String)
  | noExec (msg : String)
deriving Repr, DecidableEq

deriving instance DecidableEq for Except

def flagsLookup (flags : List FlagSpec) (name : String) : Option FlagSpec :=
  flags.find? (fun f => f.name == name)

/-- The short-alias length-and-letter check of `validateFlagsMetadata`,
with the exact nested condition of the source: the outer test fires when
the alias is not a single lowercase letter, and only then is the error
raised, and only when the first byte is also not an uppercase letter. -/
def shortAliasRejected (s : String) : Bool :=
  match s.toList with
  | [] => false
  | c0 :: cs =>
    ((!cs.isEmpty) || decide (c0 < 'a') || decide ('z' < c0))
      && (decide (c0 < 'A') || decide ('Z' < c0))

/-- The per-entry loop of `validateFlagsMetadata`, threading the
`seenShorts` map as a list of (short, flag name) pairs. -/
def validateFMLoop (cmd : Command) (seen : List (String × String)) :
    List FlagMetadata → Except String Unit
  | [] => .ok ()
  | fm :: rest =>
    if (flagsLookup cmd.flags fm.name).isNone then
      .error ("flag metadata references unknown flag " ++ quote fm.name)
    else if fm.short == "" then
      validateFMLoop cmd seen rest
    else if shortAliasRejected fm.short then
      .error ("flag " ++ quote fm.name ++ ": short alias must be a single ASCII letter, got "
        ++ quote fm.short)
    else
      match seen.find? (fun p => p.1 == fm.short) with
      | some p =>
        .error ("duplicate short flag " ++ quote fm.short ++ ": used by both "
          ++ quote p.2 ++ " and " ++ quote fm.name)
      | none => validateFMLoop cmd (seen ++ [(fm.short, fm.name)]) rest

/-- `validateFlagsMetadata` from parse.go: metadata entries must reference
declared flags, short aliases must pass the single-letter check and be
pairwise distinct. -/
def validateFlagsMetadata (cmd : Command) : Except String Unit :=
  if cmd.flagsMetadata.isEmpty then .ok ()
  else validateFMLoop cmd [] cmd.flagsMetadata

def quoteJoin (l : List String) : String :=
  String.intercalate ", " (l.map quote)

mutual

/-- `validateCommands` from parse.go: recursively validate names and flag
metadata over the whole tree, before any token is examined. -/
def validateCommands : Command → List String → Except String Unit
  | root@(.mk nm _ _ subs _), path =>
    if nm == "" then
      if path.isEmpty then .error "root command has no name"
      else .error ("subcommand in path [" ++ String.intercalate ", " path ++ "] has no name")
    else
      let currentPath := path ++ [nm]
      if !validName nm then
        .error ("command [" ++ quoteJoin currentPath
          ++ "]: name must start with a letter and contain only letters, numbers, dashes (-) or underscores (_)")
      else
        match validateFlagsMetadata root with
        | .error e => .error ("command [" ++ quoteJoin currentPath ++ "]: " ++ e)
        | .ok _ => validateSubs subs currentPath
termination_by structural c => c

/-- The recursion of `validateCommands` over the subcommand list. -/
def validateSubs : List Command → List String → Except String Unit
  | [], _ => .ok ()
  | s :: rest, currentPath =>
    match validateCommands s currentPath with
    | .error e => .error e
    | .ok _ => validateSubs rest currentPath
termination_by structural l => l

end

/-- `findSubCommand` from command.go: first subcommand whose name matches
case-insensitively. -/
def findSubCommand (c : Command) (name : String) : Option Command :=
  c.subs.find? (fun sub => equalFold sub.name name)

/-- An entry of the resolved path: the command together with its identity,
the list of command names from the root, standing in for Go's pointer
identity when addressing the command's flag value cells. -/
structure PathEntry where
  idPath : List String
  cmd : Command

/-- One command's contribution to the flag-arity lookahead of
`resolveCommandPath`: direct lookup by long name first, then the first
metadata entry whose short alias matches. -/
def lookupFlagInCmd (cmd : Command) (name : String) : Option FlagSpec :=
  match flagsLookup cmd.flags name with
  | some f => some f
  | none =>
    match cmd.flagsMetadata.find? (fun fm => fm.short == name) with
    | some fm => flagsLookup cmd.flags fm.name
    | none => none

/-- Scan the path so far (root through current) for the named flag,
stopping at the first command that resolves it. -/
def findFlagOnPath (path : List PathEntry) (name : String) : Option FlagSpec :=
  match path with
  | [] => none
  | e :: rest =>
    match lookupFlagInCmd e.cmd name with
    | some f => some f
    | none => findFlagOnPath rest name

/-- Whether the lookahead decides the flag consumes the next token as its
value: found on the path and not boolean-like. -/
def flagSkipsValue (path : List PathEntry) (name : String) : Bool :=
  match findFlagOnPath path name with
  | some f => !f.isBool
  | none => false

/-- The traversal loop of `resolveCommandPath` (parse.go): walks the
parseable tokens, skipping flags (and their value token when the lookahead
over the whole path so far says the flag is not boolean-like) and
descending into subcommands; returns the built path, the terminal entry,
and an unknown-command error when a non-flag token fails to match a child
of a command that has children. -/
def resolveLoop (path : List PathEntry) (current : PathEntry) :
    List String → List PathEntry × PathEntry × Option PError
  | [] => (path, current, none)
  | arg :: rest =>
    if startsWithDash arg then
      if containsEq arg then
        resolveLoop path current rest
      else if flagSkipsValue path (trimDashes arg) then
        match rest with
        | [] => (path, current, none)
        | _ :: rest2 => resolveLoop path current rest2
      else
        resolveLoop path current rest
    else
      if !current.cmd.subs.isEmpty then
        match findSubCommand current.cmd arg with
        | some sub =>
          let e : PathEntry := ⟨current.idPath ++ [sub.name], sub⟩
          resolveLoop (path ++ [e]) e rest
        | none => (path, current, some (.unknownCommand arg))
      else
        (path, current, none)
termination_by structural toks => toks

/-- A flag value cell address: the owning command's identity (its name path
from the root) and the flag's long name; stands in for the shared
`flag.Value` pointer. -/
abbrev CellKey := List String × String

/-- The mutable flag values: cell address to current string value.  A cell
with no entry still holds its declared default. -/
abbrev Store := List (CellKey × String)

def storeGet (st : Store) (k : CellKey) : Option String :=
  (st.find? (fun e => e.1 == k)).map (·.2)

def storeSet (st : Store) (k : CellKey) (v : String) : Store :=
  match st with
  | [] => [(k, v)]
  | e :: rest => if e.1 == k then (k, v) :: rest else e :: storeSet rest k v

/-- An entry of the merged flag namespace (`combineFlags` output): the
lookup key (a long name or a short alias), and the cell it is bound to,
given by the owning command's identity and the flag's long name, plus the
boolean-likeness and declared default used when parsing and reading. -/
structure CFlag where
  key : String
  owner : List String
  fname : String
  isBool : Bool
  defValue : String
deriving Repr, DecidableEq

/-- Lexicographic comparison on character lists (byte order on ASCII),
the order `flag.FlagSet.VisitAll` sorts by. -/
def charListLe : List Char → List Char → Bool
  | [], _ => true
  | _ :: _, [] => false
  | a :: as, b :: bs => if a = b then charListLe as bs else decide (a < b)

/-- Insertion step of the lexicographic sort that `flag.FlagSet.VisitAll`
applies to a command's flags. -/
def insertByName (f : FlagSpec) : List FlagSpec → List FlagSpec
  | [] => [f]
  | g :: rest =>
    if charListLe f.name.toList g.name.toList then f :: g :: rest else g :: insertByName f rest

/-- `VisitAll` iterates a flag set in lexicographic order of flag names. -/
def sortFlags (fs : List FlagSpec) : List FlagSpec :=
  fs.foldr insertByName []

/-- `shortFlagMap` from parse.go builds a Go map from long name to short
alias, skipping empty shorts; on duplicate names the last entry wins, so
the lookup takes the last matching metadata entry with a non-empty short. -/
def shortFor (metadata : List FlagMetadata) (name : String) : Option String :=
  ((metadata.filter (fun fm => fm.short != "")).reverse.find? (fun fm => fm.name == name)).map
    (·.short)

def hasKey (combined : List CFlag) (k : String) : Bool :=
  combined.any (fun e => e.key == k)

/-- Registration of one flag (and its short alias, when declared) into the
merged namespace: each key is added only if still free, and the short
alias is bound to the same cell as the long-form flag of the registering
command. -/
def addOneFlag (idp : List String) (meta : List FlagMetadata) (combined : List CFlag)
    (f : FlagSpec) : List CFlag :=
  let combined1 :=
    if hasKey combined f.name then combined
    else combined ++ [⟨f.name, idp, f.name, f.isBool, f.defValue⟩]
  match shortFor meta f.name with
  | some s =>
    if hasKey combined1 s then combined1
    else combined1 ++ [⟨s, idp, f.name, f.isBool, f.defValue⟩]
  | none => combined1

/-- One command's registrations (`cmd.Flags.VisitAll` body in
`combineFlags`). -/
def addCmdFlags (combined : List CFlag) (e : PathEntry) : List CFlag :=
  (sortFlags e.cmd.flags).foldl (addOneFlag e.idPath e.cmd.flagsMetadata) combined

/-- `combineFlags` from parse.go: merge the flag namespaces along the path
in reverse order (deepest first), so child flags take precedence, and
register short aliases sharing the same cell as their long counterpart. -/
def combineFlags (path : List PathEntry) : List CFlag :=
  path.reverse.foldl addCmdFlags []

def lookupCombined (combined : List CFlag) (k : String) : Option CFlag :=
  combined.find? (fun e => e.key == k)

/-- Result of the flags-anywhere parse: cell assignments in order, leftover
positional tokens, the set of explicitly touched lookup names, and an
error message if parsing failed partway. -/
structure PTE where
  sets : List (CellKey × String)
  args : List String
  touched : List String
  err : Option String
deriving Repr, DecidableEq

/-- The flag body of a token for the flags-anywhere parse: strip one or
two leading dashes; a token without dashes, a bare "-", or a bare "--" is
not a flag token. -/
def flagBody (tok : String) : Option String :=
  match tok.toList with
  | '-' :: '-' :: rest => if rest.isEmpty then none else some (String.mk rest)
  | '-' :: rest => if rest.isEmpty then none else some (String.mk rest)
  | _ => none

/-- A stripped flag body whose first character is a dash or an equals sign
is malformed. -/
def badFlagSyntax (body : String) : Bool :=
  match body.toList with
  | [] => true
  | c :: _ => c == '-' || c == '='

/-- Split a flag body at the first equals sign into name and value. -/
def splitEq (s : String) : String × Option String :=
  match s.toList.span (fun c => c != '=') with
  | (pre, []) => (String.mk pre, none)
  | (pre, _ :: post) => (String.mk pre, some (String.mk post))

/-- Modelled from the spec: `xflag.ParseToEnd`, whose source is not in the
repository snapshot (only its tests), per §4.3 of the spec: parse flags
that may appear before, after, or interleaved with positional arguments,
until the tokens are exhausted or a literal "--" ends flag interpretation
(everything after it is positional); record every flag actually set as
touched, regardless of value; an unknown flag is an immediate error naming
the offending token; a non-boolean flag without "=" consumes the next
token as its value.  Value-format validation is not modelled: cells store
the raw string. -/
def parseToEndLoop (combined : List CFlag) :
    List String → List (CellKey × String) → List String → List String → PTE
  | [], sets, pos, touched => ⟨sets, pos, touched, none⟩
  | tok :: rest, sets, pos, touched =>
    if tok == "--" then ⟨sets, pos ++ rest, touched, none⟩
    else
      match flagBody tok with
      | none => parseToEndLoop combined rest sets (pos ++ [tok]) touched
      | some body =>
        if badFlagSyntax body then
          ⟨sets, pos, touched, some ("bad flag syntax: " ++ tok)⟩
        else
          let nv := splitEq body
          match lookupCombined combined nv.1 with
          | none => ⟨sets, pos, touched, some ("flag provided but not defined: -" ++ nv.1)⟩
          | some cf =>
            match nv.2 with
            | some v =>
              parseToEndLoop combined rest (sets ++ [((cf.owner, cf.fname), v)]) pos
                (touched ++ [nv.1])
            | none =>
              if cf.isBool then
                parseToEndLoop combined rest (sets ++ [((cf.owner, cf.fname), "true")]) pos
                  (touched ++ [nv.1])
              else
                match rest with
                | [] => ⟨sets, pos, touched, some ("flag needs an argument: -" ++ nv.1)⟩
                | v :: rest2 =>
                  parseToEndLoop combined rest2 (sets ++ [((cf.owner, cf.fname), v)]) pos
                    (touched ++ [nv.1])

/-- Modelled from the spec: entry point of the flags-anywhere parse. -/
def parseToEnd (combined : List CFlag) (tokens : List String) : PTE :=
  parseToEndLoop combined tokens [] [] []

/-- Apply the recorded cell assignments to the store in order. -/
def applySets (st : Store) (sets : List (CellKey × String)) : Store :=
  sets.foldl (fun s kv => storeSet s kv.1 kv.2) st

def formatFlagName (name : String) : String :=
  "-" ++ name

def getCommandPath (path : List PathEntry) : String :=
  String.intercalate " " (path.map (fun e => e.cmd.name))

/-- The inner metadata loop of `checkRequiredFlags`: collect the formatted
names of required flags not explicitly set, failing on a required flag
missing from the merged namespace. -/
def checkCmdRequired (pathStr : String) (combined : List CFlag) (touched : List String) :
    List FlagMetadata → List String → Except PError (List String)
  | [], acc => .ok acc
  | fm :: rest, acc =>
    if !fm.required then checkCmdRequired pathStr combined touched rest acc
    else if (lookupCombined combined fm.name).isNone then
      .error (.requiredInternal ("command " ++ quote pathStr
        ++ ": internal error: required flag " ++ formatFlagName fm.name
        ++ " not found in flag set"))
    else if touched.contains fm.name then checkCmdRequired pathStr combined touched rest acc
    else checkCmdRequired pathStr combined touched rest (acc ++ [formatFlagName fm.name])

/-- The outer path loop of `checkRequiredFlags`. -/
def checkPathRequired (pathStr : String) (combined : List CFlag) (touched : List String) :
    List PathEntry → List String → Except PError (List String)
  | [], acc => .ok acc
  | e :: rest, acc =>
    match checkCmdRequired pathStr combined touched e.cmd.flagsMetadata acc with
    | .error err => .error err
    | .ok acc2 => checkPathRequired pathStr combined touched rest acc2

/-- `checkRequiredFlags` from parse.go: every flag marked required in the
metadata of a command on the path must have been explicitly set during
parsing (membership of its exact name in the touched set); all missing
flags across the whole path are aggregated into one comma-joined error. -/
def checkRequiredFlags (path : List PathEntry) (combined : List CFlag)
    (touched : List String) : Except PError Unit :=
  let pathStr := getCommandPath path
  match checkPathRequired pathStr combined touched path [] with
  | .error e => .error e
  | .ok missing =>
    if missing.isEmpty then .ok ()
    else
      let msg := if missing.length > 1 then "required flags" else "required flag"
      .error (.missingRequired ("command " ++ quote pathStr ++ ": " ++ msg ++ " "
        ++ quote (String.intercalate ", " missing) ++ " not set"))

/-- The prefix-stripping loop of `collectArgs`: drop parsed tokens while
they match, in order and case-insensitively, the names of the commands
resolved during traversal. -/
def stripChain : List String → List String → List String
  | parsed, [] => parsed
  | [], _ => []
  | p :: ps, c :: cs => if equalFold p c then stripChain ps cs else p :: ps

/-- `collectArgs` from parse.go: strip the resolved command names
(excluding the root) from the parser's leftover positionals and append the
raw remainder from after the "--" delimiter verbatim. -/
def collectArgs (chainNames : List String) (parsed remaining : List String) : List String :=
  stripChain parsed chainNames ++ remaining

/-- `splitAtDelimiter` from parse.go: split the raw arguments at the first
literal "--". -/
def splitAtDelimiter : List String → List String × List String
  | [] => ([], [])
  | a :: rest =>
    if a == "--" then ([], rest)
    else
      let p := splitAtDelimiter rest
      (a :: p.1, p.2)

/-- The outcome of one `Parse` call before it is applied to the carried
state: the error (if any), the resolved path identities (`none` when
validation failed before the path reset), the flag cell assignments made
by the authoritative parse, and the new positional argument list (`some`
exactly when the source assigns `root.state.Args`). -/
structure POut where
  err : Option PError
  pathIds : Option (List (List String))
  sets : List (CellKey × String)
  newArgs : Option (List String)
deriving Repr, DecidableEq

def rootEntry (root : Command) : PathEntry :=
  ⟨[root.name], root⟩

/-- The body of `Parse` from parse.go as a function of the tree and the
raw arguments alone: validation, delimiter split, command-path resolution,
exact-token help scan, flag-namespace merge, flags-anywhere parse,
required-flag enforcement, positional-argument assembly, exec check — in
the source's order, recording the state effects instead of mutating. -/
def parseEngine (root : Command) (args : List String) : POut :=
  match validateCommands root [] with
  | .error e => ⟨some (.validation ("failed to parse: " ++ e)), none, [], none⟩
  | .ok _ =>
    let sp := splitAtDelimiter args
    let r := resolveLoop [rootEntry root] (rootEntry root) sp.1
    let pathIds := some (r.1.map (·.idPath))
    match r.2.2 with
    | some e => ⟨some e, pathIds, [], none⟩
    | none =>
      if sp.1.any (fun a => a == "-h" || a == "--h" || a == "-help" || a == "--help") then
        ⟨some .help, pathIds, [], none⟩
      else
        let combined := combineFlags r.1
        let pte := parseToEnd combined sp.1
        match pte.err with
        | some m =>
          ⟨some (.flagParse ("command " ++ quote (getCommandPath r.1) ++ ": " ++ m)),
            pathIds, pte.sets, none⟩
        | none =>
          match checkRequiredFlags r.1 combined pte.touched with
          | .error e => ⟨some e, pathIds, pte.sets, none⟩
          | .ok _ =>
            let finalArgs := collectArgs ((r.1.map (fun e => e.cmd.name)).tail) pte.args sp.2
            if !r.2.1.cmd.hasExec then
              ⟨some (.noExec ("command " ++ quote (getCommandPath r.1)
                ++ ": no exec function defined")), pathIds, pte.sets, some finalArgs⟩
            else
              ⟨none, pathIds, pte.sets, some finalArgs⟩

/-- The observable per-tree state across `Parse` calls: the mirror of
`root.state` (resolved path and Args) together with the flag value cells
living on the commands. -/
structure CLIState where
  pathIds : List (List String)
  args : List String
  store : Store
deriving Repr, DecidableEq

def initState : CLIState :=
  ⟨[], [], []⟩

/-- `Parse` from parse.go for a non-nil root: run the engine and apply its
effects to the carried state. -/
def Parse (root : Command) (st : CLIState) (args : List String) :
    Except PError Unit × CLIState :=
  let o := parseEngine root args
  let st2 : CLIState :=
    ⟨o.pathIds.getD st.pathIds, o.newArgs.getD st.args, applySets st.store o.sets⟩
  match o.err with
  | some e => (.error e, st2)
  | none => (.ok (), st2)

/-- `Parse` including the nil-root guard at the top of the source. -/
def ParseOpt (root : Option Command) (st : CLIState) (args : List String) :
    Except PError Unit × CLIState :=
  match root with
  | none => (.error .nilRoot, st)
  | some r => Parse r st args

/-- Read a flag through the merged namespace of a path: resolve the lookup
key to its cell and read the store, falling back to the declared default
(the semantics of reading a `flag.Value` after parsing). -/
def flagValue (path : List PathEntry) (store : Store) (key : String) : Option String :=
  (lookupCombined (combineFlags path) key).map
    (fun cf => (storeGet store (cf.owner, cf.fname)).getD cf.defValue)

/-- Set a flag through the merged namespace of a path: resolve the lookup
key to its cell and write the store (the semantics of `FlagSet.Set`). -/
def setFlagByKey (path : List PathEntry) (store : Store) (k v : String) : Store :=
  match lookupCombined (combineFlags path) k with
  | some cf => storeSet store (cf.owner, cf.fname) v
  | none => store

/-- The formatted names of one command's required flags that were not
explicitly set: the specification-side description of what
`checkRequiredFlags` collects per command. -/
def missedOfCmd (touched : List String) (ms : List FlagMetadata) : List String :=
  (ms.filter (fun fm => fm.required && !touched.contains fm.name)).map
    (fun fm => formatFlagName fm.name)

/-- All missing required flags across a path, in path order. -/
def missedList (touched : List String) : List PathEntry → List String
  | [] => []
  | e :: rest => missedOfCmd touched e.cmd.flagsMetadata ++ missedList touched rest

/-! Concrete command trees used by the scenario parts of the claims. -/

/-- C1 scenario: `child` is a subcommand of `parent`, which declares the
non-boolean flag `output`. -/
def lookChild : Command := .mk "child" [] [] [] true

def lookParent : Command := .mk "parent" [⟨"output", "", false⟩] [] [lookChild] false

def lookRoot : Command := .mk "app" [] [] [lookParent] false

/-- A one-command path declaring a non-boolean `output` flag. -/
def lookPath : List PathEntry := [⟨["p"], .mk "p" [⟨"output", "", false⟩] [] [] true⟩]

/-- C2: a root with a string flag `output` whose declared default is `""`. -/
def reuseRoot : Command := .mk "app" [⟨"output", "", false⟩] [] [] true

/-- An arbitrary dirty state, for observing what a new `Parse` call resets. -/
def altState : CLIState := ⟨[["zzz"]], ["junk"], [((["zzz"], "q"), "1")]⟩

/-- C2: a root with a subcommand, for observing the positional-argument
list across a second call that fails during traversal. -/
def reuseSub : Command := .mk "app" [⟨"output", "", false⟩] [] [.mk "sub" [] [] [] true] true

/-- C3: a required string flag whose default is `"8080"`. -/
def portRoot : Command := .mk "mycli" [⟨"port", "8080", false⟩] [⟨"port", true, ""⟩] [] true

/-- C3: required `force` next to the longer-named `force-all`. -/
def forceRoot : Command :=
  .mk "mycli" [⟨"force", "false", true⟩, ⟨"force-all", "false", true⟩] [⟨"force", true, ""⟩] [] true

/-- The spec's sample tree (§8), root named `root`. -/
def sampleSub : Command := .mk "sub" [⟨"echo", "", false⟩] [⟨"echo", false, ""⟩] [] true

def sampleHello : Command :=
  .mk "hello" [⟨"mandatory-flag", "false", true⟩, ⟨"another-mandatory-flag", "", false⟩]
    [⟨"mandatory-flag", true, ""⟩, ⟨"another-mandatory-flag", true, ""⟩] [] true

def sampleNested : Command :=
  .mk "nested" [⟨"force", "false", true⟩] [] [sampleSub, sampleHello] true

def sampleAdd : Command := .mk "add" [⟨"dry-run", "false", true⟩] [] [] true

def sampleRoot : Command :=
  .mk "root" [⟨"verbose", "false", true⟩, ⟨"version", "false", true⟩] []
    [sampleAdd, sampleNested] true

/-- A flagless root command with an Exec handler. -/
def plainRoot : Command := .mk "app" [] [] [] true

/-- A root with a single subcommand `sub`. -/
def subRoot : Command := .mk "app" [] [] [.mk "sub" [] [] [] true] true

/-- C7: the root's `output` (short alias `o`) is shadowed by the child's
own `output` flag. -/
def shadowChild : Command := .mk "sub" [⟨"output", "", false⟩] [] [] true

def shadowRoot : Command :=
  .mk "app" [⟨"output", "", false⟩] [⟨"output", false, "o"⟩] [shadowChild] true

def shadowPath : List PathEntry := [⟨["app"], shadowRoot⟩, ⟨["app", "sub"], shadowChild⟩]

/-- C7 witness: a child whose flags do not collide with the root's
`output`/`o`, so the inherited alias stays paired on the two-command path. -/
def inheritChild : Command := .mk "sub" [⟨"verbose", "false", true⟩] [] [] true

def inheritRoot : Command :=
  .mk "app" [⟨"output", "", false⟩] [⟨"output", false, "o"⟩] [inheritChild] true

def inheritPath : List PathEntry := [⟨["app"], inheritRoot⟩, ⟨["app", "sub"], inheritChild⟩]

/-- C8: short alias `"AB"`: not a single ASCII letter, first byte uppercase. -/
def abCmd : Command := .mk "root" [⟨"verbose", "false", true⟩] [⟨"verbose", false, "AB"⟩] [] true

/-- C8: short alias `"vv"`: not a single ASCII letter, first byte lowercase. -/
def vvCmd : Command := .mk "root" [⟨"verbose", "false", true⟩] [⟨"verbose", false, "vv"⟩] [] true

/-! Theorems. -/

/-- C10: calling resolution with a nil root command returns an error rather
than dereferencing the root: for every state and token list, the parse
yields the nil-root error and performs no traversal, validation, or state
mutation (the state is returned unchanged). -/
theorem nil_root_rejected (st : CLIState) (args : List String) :
    ParseOpt none st args = (.error .nilRoot, st) := rfl

/-- C1: a token starting with a dash and containing no equals sign whose
stripped name resolves (by long name or short alias) on the path so far to
a non-boolean flag makes resolution consume the following token as the
flag's value, never matching it as a subcommand; in particular, on the
scenario tree, `["parent", "--output", "foo", "child"]` resolves to
terminal `child` with `output = "foo"` and no unknown-command error. -/
theorem flag_value_lookahead :
    (∀ (path : List PathEntry) (current : PathEntry) (arg v : String) (rest : List String),
      startsWithDash arg = true → containsEq arg = false →
      flagSkipsValue path (trimDashes arg) = true →
      resolveLoop path current (arg :: v :: rest) = resolveLoop path current rest) ∧
    Parse lookRoot initState ["parent", "--output", "foo", "child"] =
      (.ok (), ⟨[["app"], ["app", "parent"], ["app", "parent", "child"]], [],
        [((["app", "parent"], "output"), "foo")]⟩) := by
  constructor
  · intro path current arg v rest h1 h2 h3
    simp [resolveLoop, h1, h2, h3]
  · decide

/-- Witness for C1 at a concrete path and tokens. -/
theorem flag_value_lookahead_witness :
    (startsWithDash "--output" = true ∧ containsEq "--output" = false ∧
      flagSkipsValue lookPath (trimDashes "--output") = true) ∧
    resolveLoop lookPath ⟨["p"], .mk "p" [⟨"output", "", false⟩] [] [] true⟩
        ["--output", "v", "child"] =
      resolveLoop lookPath ⟨["p"], .mk "p" [⟨"output", "", false⟩] [] [] true⟩ ["child"] :=
  ⟨⟨by decide, by decide, by decide⟩,
    flag_value_lookahead.1 lookPath ⟨["p"], .mk "p" [⟨"output", "", false⟩] [] [] true⟩
      "--output" "v" ["child"] (by decide) (by decide) (by decide)⟩

/-- C8 (code bug): the single-ASCII-letter validation of short aliases has
a hole: an alias of length ≠ 1 whose first byte is an uppercase letter,
such as `"AB"`, passes `validateFlagsMetadata`, and `Parse` proceeds with
no validation error, contradicting the documented invariant (its own error
message, raised for `"vv"`, demands a single ASCII letter). -/
theorem short_alias_validation_hole :
    validateFlagsMetadata abCmd = .ok () ∧
    (Parse abCmd initState []).1 = .ok () ∧
    validateFlagsMetadata vvCmd =
      .error "flag \"verbose\": short alias must be a single ASCII letter, got \"vv\"" := by
  refine ⟨by decide, by decide, by decide⟩

/-- C9: an unknown-command failure during traversal takes priority over the
help short-circuit: whenever traversal of the pre-delimiter tokens fails
with an unknown-command error, `Parse` returns that error — with no
condition on help markers in the token list — and in particular
`["bogus", "--help"]` on a tree with subcommand `sub` yields the
unknown-command error, not the help sentinel. -/
theorem unknown_command_overrides_help :
    (∀ (root : Command) (st : CLIState) (args : List String) (tok : String),
      validateCommands root [] = .ok () →
      (resolveLoop [rootEntry root] (rootEntry root) (splitAtDelimiter args).1).2.2 =
        some (.unknownCommand tok) →
      (Parse root st args).1 = .error (.unknownCommand tok)) ∧
    (Parse subRoot initState ["bogus", "--help"]).1 = .error (.unknownCommand "bogus") := by
  constructor
  · intro root st args tok hv hr
    simp [Parse, parseEngine, hv, hr]
  · decide

/-- Witness for C9 on the concrete tree and tokens. -/
theorem unknown_command_overrides_help_witness :
    (validateCommands subRoot [] = .ok () ∧
      (resolveLoop [rootEntry subRoot] (rootEntry subRoot)
          (splitAtDelimiter ["bogus", "--help"]).1).2.2 =
        some (.unknownCommand "bogus")) ∧
    (Parse subRoot initState ["bogus", "--help"]).1 = .error (.unknownCommand "bogus") :=
  ⟨⟨by decide, by decide⟩,
    unknown_command_overrides_help.1 subRoot initState ["bogus", "--help"] "bogus"
      (by decide) (by decide)⟩

/-- C6: when traversal of the pre-delimiter tokens succeeds and one of them
is exactly `-h`, `--h`, `-help` or `--help`, `Parse` returns the
distinguished help sentinel (a constructor of its own, not a failure
message); a token that merely extends a help marker, such as `-helpme`,
does not trigger the sentinel and instead reaches the flag parser. -/
theorem help_sentinel_after_resolution :
    (∀ (root : Command) (st : CLIState) (args : List String),
      validateCommands root [] = .ok () →
      (resolveLoop [rootEntry root] (rootEntry root) (splitAtDelimiter args).1).2.2 = none →
      ((splitAtDelimiter args).1.any
        (fun a => a == "-h" || a == "--h" || a == "-help" || a == "--help")) = true →
      (Parse root st args).1 = .error .help) ∧
    (Parse plainRoot initState ["-helpme"]).1 =
      .error (.flagParse "command \"app\": flag provided but not defined: -helpme") ∧
    (Parse plainRoot initState ["--help"]).1 = .error .help := by
  refine ⟨?_, by decide, by decide⟩
  intro root st args hv hr hh
  simp [Parse, parseEngine, hv, hr, hh]

/-- When validation succeeds, the engine always reports the freshly
resolved path, whatever the later stages do. -/
theorem parseEngine_pathIds (root : Command) (args : List String)
    (hv : validateCommands root [] = .ok ()) :
    (parseEngine root args).pathIds =
      some ((resolveLoop [rootEntry root] (rootEntry root) (splitAtDelimiter args).1).1.map
        (·.idPath)) := by
  simp only [parseEngine, hv]
  repeat' split <;> try rfl

/-- Without a literal `"--"`, the delimiter split returns all tokens as
parseable and no remainder. -/
theorem splitAtDelimiter_no_delim (l : List String) (h : "--" ∉ l) :
    splitAtDelimiter l = (l, []) := by
  induction l with
  | nil => rfl
  | cons a rest ih =>
    simp only [List.mem_cons, not_or] at h
    have ha : a ≠ "--" := fun e => h.1 e.symm
    simp [splitAtDelimiter, ih h.2, ha]

/-- The delimiter split cuts at the first literal `"--"`. -/
theorem splitAtDelimiter_append (pre post : List String) (h : "--" ∉ pre) :
    splitAtDelimiter (pre ++ "--" :: post) = (pre, post) := by
  induction pre with
  | nil => simp [splitAtDelimiter]
  | cons a rest ih =>
    simp only [List.mem_cons, not_or] at h
    have ha : a ≠ "--" := fun e => h.1 e.symm
    simp [splitAtDelimiter, ih h.2, ha]

/-- The raw remainder is appended verbatim at the end of the positional
argument assembly. -/
theorem collectArgs_append (chain parsed rem : List String) :
    collectArgs chain parsed rem = collectArgs chain parsed [] ++ rem := by
  simp [collectArgs]

/-- The engine's outcome on `pre ++ "--" :: post` is the outcome on `pre`
alone, with the post-delimiter tokens appended verbatim to the positional
list: they influence nothing else. -/
theorem parseEngine_delim (root : Command) (pre post : List String) (h : "--" ∉ pre) :
    (parseEngine root (pre ++ "--" :: post)).err = (parseEngine root pre).err ∧
    (parseEngine root (pre ++ "--" :: post)).pathIds = (parseEngine root pre).pathIds ∧
    (parseEngine root (pre ++ "--" :: post)).sets = (parseEngine root pre).sets ∧
    (parseEngine root (pre ++ "--" :: post)).newArgs =
      (parseEngine root pre).newArgs.map (fun l => l ++ post) := by
  have h1 := splitAtDelimiter_append pre post h
  have h2 := splitAtDelimiter_no_delim pre h
  simp only [parseEngine, h1, h2]
  repeat' split
  all_goals first
    | rfl
    | simp_all [collectArgs]

/-- A successful engine run always assigns the positional arguments. -/
theorem parseEngine_newArgs_of_ok (root : Command) (args : List String)
    (h : (parseEngine root args).err = none) :
    ∃ l, (parseEngine root args).newArgs = some l := by
  revert h
  simp only [parseEngine]
  repeat' split
  all_goals intro h
  all_goals first
    | exact ⟨_, rfl⟩
    | simp at h

/-- C4: resolution splits at the first literal `"--"`: the outcome (error
or success), resolved path and flag stores of parsing
`pre ++ "--" :: post` are those of parsing `pre` alone — so the tokens
after the delimiter are never interpreted as flags or subcommands — and on
success the final positional list is the one computed from `pre` with
`post` appended verbatim, in order, as a suffix. -/
theorem delimiter_roundtrip (root : Command) (st : CLIState) (pre post : List String)
    (h : "--" ∉ pre) :
    (Parse root st (pre ++ "--" :: post)).1 = (Parse root st pre).1 ∧
    (Parse root st (pre ++ "--" :: post)).2.pathIds = (Parse root st pre).2.pathIds ∧
    (Parse root st (pre ++ "--" :: post)).2.store = (Parse root st pre).2.store ∧
    ((Parse root st (pre ++ "--" :: post)).1 = .ok () →
      (Parse root st (pre ++ "--" :: post)).2.args = (Parse root st pre).2.args ++ post) := by
  obtain ⟨he, hp, hs, hn⟩ := parseEngine_delim root pre post h
  refine ⟨?_, ?_, ?_, ?_⟩
  · cases hh : (parseEngine root pre).err <;>
      simp [Parse, hh, he.trans hh]
  · cases hh : (parseEngine root pre).err <;>
      simp [Parse, hh, he.trans hh, hp]
  · cases hh : (parseEngine root pre).err <;>
      simp [Parse, hh, he.trans hh, hs]
  · intro hok
    have herr : (parseEngine root pre).err = none := by
      cases hh : (parseEngine root pre).err with
      | none => rfl
      | some e =>
        rw [show (Parse root st (pre ++ "--" :: post)).1 =
          .error e from by simp [Parse, he.trans hh]] at hok
        exact Except.noConfusion hok
    obtain ⟨l, hl⟩ := parseEngine_newArgs_of_ok root pre herr
    simp [Parse, herr, he.trans herr, hn, hl]

/-- Witness for C4 at a concrete tree and token lists. -/
theorem delimiter_roundtrip_witness :
    ("--" ∉ (["x"] : List String)) ∧
    ((Parse plainRoot initState (["x"] ++ "--" :: ["-q", "y"])).1 =
        (Parse plainRoot initState ["x"]).1 ∧
      (Parse plainRoot initState (["x"] ++ "--" :: ["-q", "y"])).2.pathIds =
        (Parse plainRoot initState ["x"]).2.pathIds ∧
      (Parse plainRoot initState (["x"] ++ "--" :: ["-q", "y"])).2.store =
        (Parse plainRoot initState ["x"]).2.store ∧
      ((Parse plainRoot initState (["x"] ++ "--" :: ["-q", "y"])).1 = .ok () →
        (Parse plainRoot initState (["x"] ++ "--" :: ["-q", "y"])).2.args =
          (Parse plainRoot initState ["x"]).2.args ++ ["-q", "y"])) :=
  ⟨by decide, delimiter_roundtrip plainRoot initState ["x"] ["-q", "y"] (by decide)⟩

/-- An engine run that fails with anything other than the no-exec error
never assigns the positional arguments (the source returns before the
`root.state.Args` assignment). -/
theorem parseEngine_newArgs_of_err (root : Command) (args : List String) (e : PError)
    (h : (parseEngine root args).err = some e) (hne : ∀ m, e ≠ .noExec m) :
    (parseEngine root args).newArgs = none := by
  revert h
  simp only [parseEngine]
  repeat' split
  all_goals intro h
  all_goals first
    | rfl
    | exact absurd (Option.some.inj h).symm (hne _)
    | simp at h

/-- C2 counterexample: a second `Parse` call does not fully reset the
per-invocation state.  Flag current-values are not reverted to declared
defaults: on `reuseRoot` (flag `output`, default `""`), parsing
`["--output", "foo"]` and then `[]` succeeds, yet `output` still reads
`"foo"`.  And the positional-argument list set by the first call is still
observable after a second call that fails: on `reuseSub`, parsing
`["sub", "hello"]` leaves `args = ["hello"]`, and a second parse of
`["bogus"]` fails with unknown command while `args` remains `["hello"]`. -/
theorem reparse_reset_counterexample :
    ((Parse reuseRoot (Parse reuseRoot initState ["--output", "foo"]).2 []).1 = .ok () ∧
      flagValue [rootEntry reuseRoot]
        (Parse reuseRoot (Parse reuseRoot initState ["--output", "foo"]).2 []).2.store
        "output" = some "foo" ∧
      reuseRoot.flags = [⟨"output", "", false⟩] ∧ ("foo" : String) ≠ "") ∧
    ((Parse reuseSub initState ["sub", "hello"]).1 = .ok () ∧
      (Parse reuseSub initState ["sub", "hello"]).2.args = ["hello"] ∧
      (Parse reuseSub (Parse reuseSub initState ["sub", "hello"]).2 ["bogus"]).1 =
        .error (.unknownCommand "bogus") ∧
      (Parse reuseSub (Parse reuseSub initState ["sub", "hello"]).2 ["bogus"]).2.args =
        ["hello"]) := by
  refine ⟨⟨by decide, by decide, by decide, by decide⟩,
    by decide, by decide, by decide, by decide⟩

/-- C2 (amended): a second `Parse` call fully resets the resolved path and
its success/error outcome — both are functions of the tree and the new
token list alone, with no influence from the carried state.  The
positional-argument list is rebuilt from the new call alone when the call
reaches the Args assignment (success, or only the no-exec error, which
the source raises after assigning Args); on any other failure the previous
call's positional arguments remain observable.  Flag current-values are
never reverted to their declared defaults: a value set by the first call
and not overwritten is still observable after the second call (here
`output = "foo"` after re-parsing `[]`). -/
theorem reparse_resets_path_not_values :
    (∀ (root : Command) (st st' : CLIState) (args : List String),
      (Parse root st args).1 = (Parse root st' args).1) ∧
    (∀ (root : Command) (st st' : CLIState) (args : List String),
      validateCommands root [] = .ok () →
      (Parse root st args).2.pathIds = (Parse root st' args).2.pathIds) ∧
    (∀ (root : Command) (st st' : CLIState) (args : List String),
      (Parse root st args).1 = .ok () →
      (Parse root st args).2.args = (Parse root st' args).2.args) ∧
    (∀ (root : Command) (st : CLIState) (args : List String) (e : PError),
      (Parse root st args).1 = .error e → (∀ m, e ≠ .noExec m) →
      (Parse root st args).2.args = st.args) ∧
    flagValue [rootEntry reuseRoot]
      (Parse reuseRoot (Parse reuseRoot initState ["--output", "foo"]).2 []).2.store
      "output" = some "foo" := by
  refine ⟨?_, ?_, ?_, ?_, by decide⟩
  · intro root st st' args
    cases h : (parseEngine root args).err <;> simp [Parse, h]
  · intro root st st' args hv
    have hp := parseEngine_pathIds root args hv
    cases h : (parseEngine root args).err <;> simp [Parse, h, hp]
  · intro root st st' args hok
    have herr : (parseEngine root args).err = none := by
      cases h : (parseEngine root args).err with
      | none => rfl
      | some e =>
        rw [show (Parse root st args).1 = .error e from by simp [Parse, h]] at hok
        exact Except.noConfusion hok
    obtain ⟨l, hl⟩ := parseEngine_newArgs_of_ok root args herr
    simp [Parse, herr, hl]
  · intro root st args e h hne
    cases herr : (parseEngine root args).err with
    | none =>
      rw [show (Parse root st args).1 = .ok () from by simp [Parse, herr]] at h
      exact Except.noConfusion h
    | some e2 =>
      rw [show (Parse root st args).1 = .error e2 from by simp [Parse, herr]] at h
      injection h with h2
      subst h2
      have hn := parseEngine_newArgs_of_err root args e2 herr hne
      simp [Parse, herr, hn]

/-- Witness for C2 (amended) at a concrete tree, dirty state and tokens:
the path reset and the success-side positional rebuild, applied with the
hypotheses discharged. -/
theorem reparse_resets_path_not_values_witness :
    (validateCommands reuseRoot [] = .ok () ∧
      (Parse reuseRoot initState []).2.pathIds = (Parse reuseRoot altState []).2.pathIds) ∧
    ((Parse reuseRoot initState ["--output", "foo"]).1 = .ok () ∧
      (Parse reuseRoot initState ["--output", "foo"]).2.args =
        (Parse reuseRoot altState ["--output", "foo"]).2.args) :=
  ⟨⟨by decide, reparse_resets_path_not_values.2.1 reuseRoot initState altState [] (by decide)⟩,
    ⟨by decide,
      reparse_resets_path_not_values.2.2.1 reuseRoot initState altState ["--output", "foo"]
        (by decide)⟩⟩

/-- The metadata loop of the required check collects exactly the required
flags whose names are not in the touched set, appended in order. -/
theorem checkCmdRequired_ok (pathStr : String) (combined : List CFlag)
    (touched : List String) (ms : List FlagMetadata) (acc : List String)
    (hall : ∀ fm ∈ ms, fm.required = true → (lookupCombined combined fm.name).isSome) :
    checkCmdRequired pathStr combined touched ms acc = .ok (acc ++ missedOfCmd touched ms) := by
  induction ms generalizing acc with
  | nil => simp [checkCmdRequired, missedOfCmd]
  | cons fm rest ih =>
    have hallr : ∀ g ∈ rest, g.required = true → (lookupCombined combined g.name).isSome :=
      fun g hg => hall g (List.mem_cons_of_mem _ hg)
    by_cases hreq : fm.required
    · have hsome := hall fm (List.mem_cons_self _ _) hreq
      have hnone : (lookupCombined combined fm.name).isNone = false := by
        cases hl : lookupCombined combined fm.name with
        | none => rw [hl] at hsome; exact absurd hsome (by simp)
        | some cf => rfl
      by_cases htch : fm.name ∈ touched
      · simp [checkCmdRequired, hreq, hnone, htch, missedOfCmd, List.filter_cons, ih _ hallr]
      · simp [checkCmdRequired, hreq, hnone, htch, missedOfCmd, List.filter_cons, ih _ hallr]
    · simp [checkCmdRequired, hreq, missedOfCmd, List.filter_cons, ih _ hallr]

/-- The path loop of the required check aggregates the per-command missing
lists in path order. -/
theorem checkPathRequired_ok (pathStr : String) (combined : List CFlag)
    (touched : List String) (path : List PathEntry) (acc : List String)
    (hall : ∀ e ∈ path, ∀ fm ∈ e.cmd.flagsMetadata, fm.required = true →
      (lookupCombined combined fm.name).isSome) :
    checkPathRequired pathStr combined touched path acc = .ok (acc ++ missedList touched path) := by
  induction path generalizing acc with
  | nil => simp [checkPathRequired, missedList]
  | cons e rest ih =>
    have h1 := hall e (List.mem_cons_self _ _)
    have h2 : ∀ e2 ∈ rest, ∀ fm ∈ e2.cmd.flagsMetadata, fm.required = true →
        (lookupCombined combined fm.name).isSome :=
      fun e2 he2 => hall e2 (List.mem_cons_of_mem _ he2)
    simp [checkPathRequired, checkCmdRequired_ok pathStr combined touched _ acc h1,
      ih _ h2, missedList, List.append_assoc]

/-- Characterization of `checkRequiredFlags` when every required flag is
present in the merged namespace: success exactly when nothing is missing,
otherwise the aggregated comma-joined error. -/
theorem checkRequiredFlags_char (path : List PathEntry) (combined : List CFlag)
    (touched : List String)
    (hall : ∀ e ∈ path, ∀ fm ∈ e.cmd.flagsMetadata, fm.required = true →
      (lookupCombined combined fm.name).isSome) :
    checkRequiredFlags path combined touched =
      (if missedList touched path = [] then .ok ()
       else .error (.missingRequired ("command " ++ quote (getCommandPath path) ++ ": "
        ++ (if (missedList touched path).length > 1 then "required flags" else "required flag")
        ++ " " ++ quote (String.intercalate ", " (missedList touched path)) ++ " not set"))) := by
  have h := checkPathRequired_ok (getCommandPath path) combined touched path [] hall
  simp only [checkRequiredFlags, h, List.nil_append]
  by_cases hm : missedList touched path = [] <;>
    simp [hm, List.isEmpty_iff]

/-- No flag is missing exactly when every required flag on the path has its
exact name in the touched set. -/
theorem missedList_eq_nil_iff (touched : List String) (path : List PathEntry) :
    missedList touched path = [] ↔
      ∀ e ∈ path, ∀ fm ∈ e.cmd.flagsMetadata, fm.required = true → fm.name ∈ touched := by
  induction path with
  | nil => simp [missedList]
  | cons e rest ih =>
    simp only [missedList, List.append_eq_nil, ih, missedOfCmd, List.map_eq_nil_iff,
      List.filter_eq_nil_iff, List.mem_cons, forall_eq_or_imp]
    constructor
    · rintro ⟨h1, h2⟩
      refine ⟨?_, h2⟩
      intro fm hfm hreq
      have := h1 fm hfm
      simp [hreq] at this
      exact this
    · rintro ⟨h1, h2⟩
      refine ⟨?_, h2⟩
      intro fm hfm
      by_cases hreq : fm.required
      · have := h1 fm hfm hreq
        simp [hreq, this]
      · simp [hreq]

/-- C3: the required-flag check succeeds exactly when every required flag
on the path has its exact name in the touched set of the authoritative
parse (value comparison plays no role: the check takes only the touched
names).  In particular a required flag explicitly set to its declared
default (`--port 8080`, default `"8080"`) is satisfied, while providing
`--force-all` does not satisfy required `force` even though `force` is a
prefix of the provided name. -/
theorem required_iff_touched :
    (∀ (path : List PathEntry) (combined : List CFlag) (touched : List String),
      (∀ e ∈ path, ∀ fm ∈ e.cmd.flagsMetadata, fm.required = true →
        (lookupCombined combined fm.name).isSome) →
      (checkRequiredFlags path combined touched = .ok () ↔
        ∀ e ∈ path, ∀ fm ∈ e.cmd.flagsMetadata, fm.required = true → fm.name ∈ touched)) ∧
    (Parse portRoot initState ["--port", "8080"]).1 = .ok () ∧
    (Parse forceRoot initState ["--force-all"]).1 =
      .error (.missingRequired "command \"mycli\": required flag \"-force\" not set") := by
  refine ⟨?_, by decide, by decide⟩
  intro path combined touched hall
  rw [checkRequiredFlags_char path combined touched hall, ← missedList_eq_nil_iff touched path]
  by_cases hm : missedList touched path = [] <;> simp [hm]

/-- Witness for C3 at a concrete path and touched set. -/
theorem required_iff_touched_witness :
    (∀ e ∈ [rootEntry portRoot], ∀ fm ∈ e.cmd.flagsMetadata, fm.required = true →
      (lookupCombined (combineFlags [rootEntry portRoot]) fm.name).isSome) ∧
    (checkRequiredFlags [rootEntry portRoot] (combineFlags [rootEntry portRoot]) ["port"]
        = .ok () ↔
      ∀ e ∈ [rootEntry portRoot], ∀ fm ∈ e.cmd.flagsMetadata, fm.required = true →
        fm.name ∈ ["port"]) :=
  ⟨by decide,
    required_iff_touched.1 [rootEntry portRoot] (combineFlags [rootEntry portRoot]) ["port"]
      (by decide)⟩

/-- C5: when required flags are missing, `checkRequiredFlags` returns one
error aggregating every missing required flag across all commands on the
path, in path order, comma-joined, each rendered with its leading dash,
with the space-joined command path in the message; on the sample tree,
`["nested", "hello"]` reports both of hello's required flags and the path
`root nested hello`. -/
theorem missing_required_aggregated :
    (∀ (path : List PathEntry) (combined : List CFlag) (touched : List String),
      (∀ e ∈ path, ∀ fm ∈ e.cmd.flagsMetadata, fm.required = true →
        (lookupCombined combined fm.name).isSome) →
      missedList touched path ≠ [] →
      checkRequiredFlags path combined touched =
        .error (.missingRequired ("command " ++ quote (getCommandPath path) ++ ": "
          ++ (if (missedList touched path).length > 1 then "required flags" else "required flag")
          ++ " " ++ quote (String.intercalate ", " (missedList touched path)) ++ " not set"))) ∧
    (Parse sampleRoot initState ["nested", "hello"]).1 =
      .error (.missingRequired
        "command \"root nested hello\": required flags \"-mandatory-flag, -another-mandatory-flag\" not set") := by
  refine ⟨?_, by decide⟩
  intro path combined touched hall hne
  rw [checkRequiredFlags_char path combined touched hall]
  simp [hne]

/-- Witness for C5 at a concrete path and empty touched set. -/
theorem missing_required_aggregated_witness :
    ((∀ e ∈ [rootEntry forceRoot], ∀ fm ∈ e.cmd.flagsMetadata, fm.required = true →
      (lookupCombined (combineFlags [rootEntry forceRoot]) fm.name).isSome) ∧
      missedList [] [rootEntry forceRoot] ≠ []) ∧
    checkRequiredFlags [rootEntry forceRoot] (combineFlags [rootEntry forceRoot]) [] =
      .error (.missingRequired ("command " ++ quote (getCommandPath [rootEntry forceRoot]) ++ ": "
        ++ (if (missedList [] [rootEntry forceRoot]).length > 1 then "required flags"
            else "required flag")
        ++ " " ++ quote (String.intercalate ", " (missedList [] [rootEntry forceRoot]))
        ++ " not set")) :=
  ⟨⟨by decide, by decide⟩,
    missing_required_aggregated.1 [rootEntry forceRoot] (combineFlags [rootEntry forceRoot]) []
      (by decide) (by decide)⟩

/-- Writing a cell and reading it back gives the written value. -/
theorem storeGet_storeSet_self (st : Store) (k : CellKey) (v : String) :
    storeGet (storeSet st k v) k = some v := by
  induction st with
  | nil => simp [storeSet, storeGet]
  | cons e rest ih =>
    by_cases h : e.1 == k
    · simp [storeSet, storeGet, h]
    · simp only [storeSet, storeGet] at *
      simp [h, ih]

/-- A merged namespace with no entry for a key has a `none` lookup. -/
theorem lookupCombined_eq_none (acc : List CFlag) (k : String) (h : hasKey acc k = false) :
    lookupCombined acc k = none := by
  simp only [hasKey, List.any_eq_false] at h
  simp only [lookupCombined, List.find?_eq_none]
  exact h

/-- `addOneFlag` only appends entries, and each appended entry's key is the
registered flag's long name or its declared short alias. -/
theorem addOneFlag_spec (idp : List String) (meta : List FlagMetadata) (acc : List CFlag)
    (g : FlagSpec) :
    ∃ δ, addOneFlag idp meta acc g = acc ++ δ ∧
      ∀ e ∈ δ, e.key = g.name ∨ shortFor meta g.name = some e.key := by
  unfold addOneFlag
  by_cases h1 : hasKey acc g.name <;> simp only [h1, if_true, if_false, Bool.false_eq_true]
  · cases hs : shortFor meta g.name with
    | none => exact ⟨[], by simp⟩
    | some s =>
      by_cases h2 : hasKey acc s <;> simp only [h2, if_true, if_false, Bool.false_eq_true]
      · exact ⟨[], by simp⟩
      · exact ⟨[⟨s, idp, g.name, g.isBool, g.defValue⟩], rfl, by simp [hs]⟩
  · cases hs : shortFor meta g.name with
    | none => exact ⟨[⟨g.name, idp, g.name, g.isBool, g.defValue⟩], rfl, by simp⟩
    | some s =>
      by_cases h2 : hasKey (acc ++ [⟨g.name, idp, g.name, g.isBool, g.defValue⟩]) s <;>
        simp only [h2, if_true, if_false, Bool.false_eq_true]
      · exact ⟨[⟨g.name, idp, g.name, g.isBool, g.defValue⟩], rfl, by simp⟩
      · refine ⟨[⟨g.name, idp, g.name, g.isBool, g.defValue⟩,
          ⟨s, idp, g.name, g.isBool, g.defValue⟩], by simp, ?_⟩
        simp [hs]

/-- The registration fold only appends entries, each keyed by a long name
or a short alias of some flag in the folded list. -/
theorem foldl_addOneFlag_spec (idp : List String) (meta : List FlagMetadata) :
    ∀ (fs : List FlagSpec) (acc : List CFlag),
      ∃ δ, fs.foldl (addOneFlag idp meta) acc = acc ++ δ ∧
        ∀ e ∈ δ, ∃ g ∈ fs, e.key = g.name ∨ shortFor meta g.name = some e.key := by
  intro fs
  induction fs with
  | nil => exact fun acc => ⟨[], by simp⟩
  | cons g rest ih =>
    intro acc
    obtain ⟨δ1, he1, hk1⟩ := addOneFlag_spec idp meta acc g
    obtain ⟨δ2, he2, hk2⟩ := ih (addOneFlag idp meta acc g)
    refine ⟨δ1 ++ δ2, ?_, ?_⟩
    · rw [he1] at he2
      rw [List.foldl_cons, he1, he2, List.append_assoc]
    · intro e he
      rcases List.mem_append.mp he with h | h
      · exact ⟨g, List.mem_cons_self _ _, hk1 e h⟩
      · obtain ⟨g2, hg2, hke⟩ := hk2 e h
        exact ⟨g2, List.mem_cons_of_mem _ hg2, hke⟩

/-- An entry already present in the accumulator keeps winning the lookup
through the rest of the registration fold (first registration wins). -/
theorem lookupCombined_foldl_of_isSome (idp : List String) (meta : List FlagMetadata)
    (fs : List FlagSpec) (acc : List CFlag) (k : String)
    (h : (lookupCombined acc k).isSome) :
    lookupCombined (fs.foldl (addOneFlag idp meta) acc) k = lookupCombined acc k := by
  obtain ⟨δ, heq, _⟩ := foldl_addOneFlag_spec idp meta fs acc
  rw [heq]
  simp only [lookupCombined, List.find?_append]
  simp only [lookupCombined] at h
  cases hl : List.find? (fun e => e.key == k) acc with
  | none => rw [hl] at h; exact absurd h (by simp)
  | some cf => rfl

/-- Core of the amended C7: folding a flag list with no key collisions for
flag `f` (distinct long names, `f`'s short alias `s` colliding with no
long name and no other flag's short, no other short equal to `f.name`)
registers both `f.name` and `s` as lookup keys bound to the same cell
`(idp, f.name)`. -/
theorem fold_lookup_alias (idp : List String) (meta : List FlagMetadata) :
    ∀ (fs : List FlagSpec) (acc : List CFlag) (f : FlagSpec) (s : String),
      f ∈ fs →
      shortFor meta f.name = some s →
      (fs.map FlagSpec.name).Nodup →
      s ∉ fs.map FlagSpec.name →
      (∀ g ∈ fs, shortFor meta g.name = some s → g.name = f.name) →
      (∀ g ∈ fs, g.name ≠ f.name → ¬ shortFor meta g.name = some f.name) →
      hasKey acc f.name = false →
      hasKey acc s = false →
      lookupCombined (fs.foldl (addOneFlag idp meta) acc) f.name =
        some ⟨f.name, idp, f.name, f.isBool, f.defValue⟩ ∧
      lookupCombined (fs.foldl (addOneFlag idp meta) acc) s =
        some ⟨s, idp, f.name, f.isBool, f.defValue⟩ := by
  intro fs
  induction fs with
  | nil => intro acc f s hf; exact absurd hf (List.not_mem_nil f)
  | cons g rest ih =>
    intro acc f s hf hs hnd hsno hinj hnosh hKf hKs
    by_cases hfg : f = g
    · subst hfg
      have hsne : s ≠ f.name := by
        intro e
        exact hsno (by simp [e])
      have h2 : hasKey (acc ++ [⟨f.name, idp, f.name, f.isBool, f.defValue⟩]) s = false := by
        simp only [hasKey, List.any_append, Bool.or_eq_false_iff]
        exact ⟨hKs, by simp [beq_iff_eq]; exact fun e => hsne e.symm⟩
      have hacc1 : addOneFlag idp meta acc f =
          acc ++ [⟨f.name, idp, f.name, f.isBool, f.defValue⟩,
            ⟨s, idp, f.name, f.isBool, f.defValue⟩] := by
        unfold addOneFlag
        simp only [hKf, Bool.false_eq_true, if_false, hs, h2, List.append_assoc]
        rfl
      have hfindacc_f : List.find? (fun e => e.key == f.name) acc = none :=
        lookupCombined_eq_none acc f.name hKf
      have hfindacc_s : List.find? (fun e => e.key == s) acc = none :=
        lookupCombined_eq_none acc s hKs
      have hl1 : lookupCombined (addOneFlag idp meta acc f) f.name =
          some ⟨f.name, idp, f.name, f.isBool, f.defValue⟩ := by
        rw [hacc1]
        simp [lookupCombined, List.find?_append, hfindacc_f, List.find?]
      have hl2 : lookupCombined (addOneFlag idp meta acc f) s =
          some ⟨s, idp, f.name, f.isBool, f.defValue⟩ := by
        rw [hacc1]
        have : (f.name == s) = false := by simp [beq_iff_eq]; exact fun e => hsne e.symm
        simp [lookupCombined, List.find?_append, hfindacc_s, List.find?, this]
      rw [List.foldl_cons]
      constructor
      · rw [lookupCombined_foldl_of_isSome idp meta rest _ f.name (by rw [hl1]; rfl), hl1]
      · rw [lookupCombined_foldl_of_isSome idp meta rest _ s (by rw [hl2]; rfl), hl2]
    · have hfrest : f ∈ rest := by
        rcases List.mem_cons.mp hf with h | h
        · exact absurd h hfg
        · exact h
      have hgfne : g.name ≠ f.name := by
        intro e
        have h1 : f.name ∈ rest.map FlagSpec.name := List.mem_map_of_mem _ hfrest
        have h2 : g.name ∉ rest.map FlagSpec.name := by
          have := hnd
          simp only [List.map_cons, List.nodup_cons] at this
          exact this.1
        exact h2 (e ▸ h1)
      have hgsne : g.name ≠ s := by
        intro e
        exact hsno (by simp [← e])
      obtain ⟨δ, heq, hkeys⟩ := addOneFlag_spec idp meta acc g
      have hKf1 : hasKey (addOneFlag idp meta acc g) f.name = false := by
        rw [heq]
        simp only [hasKey, List.any_append, Bool.or_eq_false_iff]
        refine ⟨hKf, ?_⟩
        simp only [List.any_eq_false]
        intro e he
        rcases hkeys e he with hk | hk
        · simp [beq_iff_eq, hk]
          exact hgfne
        · simp [beq_iff_eq]
          intro e2
          exact hnosh g (List.mem_cons_self _ _) hgfne (e2 ▸ hk)
      have hKs1 : hasKey (addOneFlag idp meta acc g) s = false := by
        rw [heq]
        simp only [hasKey, List.any_append, Bool.or_eq_false_iff]
        refine ⟨hKs, ?_⟩
        simp only [List.any_eq_false]
        intro e he
        rcases hkeys e he with hk | hk
        · simp [beq_iff_eq, hk]
          exact hgsne
        · simp [beq_iff_eq]
          intro e2
          exact hgfne (hinj g (List.mem_cons_self _ _) (e2 ▸ hk))
      rw [List.foldl_cons]
      exact ih (addOneFlag idp meta acc g) f s hfrest hs
        (by simpa [List.nodup_cons] using hnd.of_cons)
        (fun e => hsno (List.mem_cons_of_mem _ e))
        (fun g2 hg2 => hinj g2 (List.mem_cons_of_mem _ hg2))
        (fun g2 hg2 => hnosh g2 (List.mem_cons_of_mem _ hg2))
        hKf1 hKs1

/-- Inserting into the sorted list is a permutation of consing. -/
theorem insertByName_perm (f : FlagSpec) (l : List FlagSpec) :
    (insertByName f l).Perm (f :: l) := by
  induction l with
  | nil => exact List.Perm.refl _
  | cons g rest ih =>
    by_cases h : charListLe f.name.data g.name.data
    · simp [insertByName, String.toList, h]
    · simp only [insertByName, String.toList, h, Bool.false_eq_true, if_false]
      exact (ih.cons g).trans (List.Perm.swap f g rest)

/-- The `VisitAll` sort is a permutation of the declaration list. -/
theorem sortFlags_perm (l : List FlagSpec) : (sortFlags l).Perm l := by
  induction l with
  | nil => exact List.Perm.refl _
  | cons f rest ih =>
    exact (insertByName_perm f (sortFlags rest)).trans (ih.cons f)

/-- `addCmdFlags` only appends entries, each keyed by one of the
registering command's long flag names or declared short aliases. -/
theorem addCmdFlags_spec (acc : List CFlag) (e2 : PathEntry) :
    ∃ δ, addCmdFlags acc e2 = acc ++ δ ∧
      ∀ cf ∈ δ, ∃ g ∈ e2.cmd.flags,
        cf.key = g.name ∨ shortFor e2.cmd.flagsMetadata g.name = some cf.key := by
  obtain ⟨δ, heq, hkeys⟩ :=
    foldl_addOneFlag_spec e2.idPath e2.cmd.flagsMetadata (sortFlags e2.cmd.flags) acc
  refine ⟨δ, heq, ?_⟩
  intro cf hcf
  obtain ⟨g, hg, hk⟩ := hkeys cf hcf
  exact ⟨g, (sortFlags_perm e2.cmd.flags).mem_iff.mp hg, hk⟩

/-- The path-level registration fold only appends entries, each keyed by a
long name or short alias of a command in the folded list. -/
theorem foldl_addCmdFlags_spec :
    ∀ (es : List PathEntry) (acc : List CFlag),
      ∃ δ, es.foldl addCmdFlags acc = acc ++ δ ∧
        ∀ cf ∈ δ, ∃ e2 ∈ es, ∃ g ∈ e2.cmd.flags,
          cf.key = g.name ∨ shortFor e2.cmd.flagsMetadata g.name = some cf.key := by
  intro es
  induction es with
  | nil => exact fun acc => ⟨[], by simp⟩
  | cons e2 rest ih =>
    intro acc
    obtain ⟨δ1, he1, hk1⟩ := addCmdFlags_spec acc e2
    obtain ⟨δ2, he2, hk2⟩ := ih (addCmdFlags acc e2)
    refine ⟨δ1 ++ δ2, ?_, ?_⟩
    · rw [he1] at he2
      rw [List.foldl_cons, he1, he2, List.append_assoc]
    · intro cf hcf
      rcases List.mem_append.mp hcf with h | h
      · obtain ⟨g, hg, hk⟩ := hk1 cf h
        exact ⟨e2, List.mem_cons_self _ _, g, hg, hk⟩
      · obtain ⟨e3, he3, g, hg, hk⟩ := hk2 cf h
        exact ⟨e3, List.mem_cons_of_mem _ he3, g, hg, hk⟩

/-- An entry already present keeps winning the lookup through the rest of
the path-level registration fold (deepest-first, first wins). -/
theorem lookupCombined_foldl_addCmd_of_isSome (es : List PathEntry) (acc : List CFlag)
    (k : String) (h : (lookupCombined acc k).isSome) :
    lookupCombined (es.foldl addCmdFlags acc) k = lookupCombined acc k := by
  obtain ⟨δ, heq, _⟩ := foldl_addCmdFlags_spec es acc
  rw [heq]
  simp only [lookupCombined, List.find?_append]
  simp only [lookupCombined] at h
  cases hl : List.find? (fun e => e.key == k) acc with
  | none => rw [hl] at h; exact absurd h (by simp)
  | some cf => rfl

/-- A key that no command in the folded list declares (as a long name or a
short alias) stays unregistered through the path-level fold. -/
theorem hasKey_foldl_addCmd_false (es : List PathEntry) (acc : List CFlag) (k : String)
    (hacc : hasKey acc k = false)
    (h : ∀ e2 ∈ es, ∀ g ∈ e2.cmd.flags,
      g.name ≠ k ∧ ¬ shortFor e2.cmd.flagsMetadata g.name = some k) :
    hasKey (es.foldl addCmdFlags acc) k = false := by
  obtain ⟨δ, heq, hkeys⟩ := foldl_addCmdFlags_spec es acc
  rw [heq]
  simp only [hasKey, List.any_append, Bool.or_eq_false_iff]
  refine ⟨hacc, ?_⟩
  simp only [List.any_eq_false]
  intro cf hcf
  obtain ⟨e2, he2, g, hg, hk⟩ := hkeys cf hcf
  rcases hk with hk | hk
  · simp only [beq_iff_eq, hk]
    exact (h e2 he2 g hg).1
  · simp only [beq_iff_eq]
    intro e3
    exact (h e2 he2 g hg).2 (e3 ▸ hk)

/-- C7 counterexample: in the merged namespace of the `shadowRoot` path,
where the child's own `output` flag shadows the root's `output` (declared
with short alias `o`), the short alias is bound to the root's cell while
the long name resolves to the child's cell; setting via `o` and reading
via `output` yields the child's untouched default `""`, not the written
`"x"` — the same mismatch is observable through a full `Parse` of
`["sub", "-o", "x"]`. -/
theorem short_alias_shared_cell_counterexample :
    shortFor shadowRoot.flagsMetadata "output" = some "o" ∧
    flagValue shadowPath (setFlagByKey shadowPath [] "o" "x") "output" = some "" ∧
    some ("" : String) ≠ some "x" ∧
    (Parse shadowRoot initState ["sub", "-o", "x"]).1 = .ok () ∧
    flagValue shadowPath (Parse shadowRoot initState ["sub", "-o", "x"]).2.store "output" =
      some "" := by
  refine ⟨by decide, by decide, by decide, by decide, by decide⟩

/-- C7 (amended): in the merged namespace of any resolved path in which
the declaring command sits, a declared short alias is bound to the same
cell as its long-form flag — setting through either key and reading
through the other yields the identical value — provided the keys do not
collide: within the declaring command, distinct long names, the alias
equal to no long name and no other flag's short, and no other short equal
to the flag's long name; and no command deeper on the path (which
registers first and wins) declares either key as a long name or short
alias.  Commands shallower than the declaring one need no condition.
(The counterexample shows the deeper-command proviso is necessary: a
descendant's same-named flag shadows the long name while the ancestor's
short alias still registers against the ancestor's cell.) -/
theorem short_alias_shared_cell (pre post : List PathEntry) (idp : List String) (cmd : Command)
    (f : FlagSpec) (s : String)
    (hf : f ∈ cmd.flags)
    (hs : shortFor cmd.flagsMetadata f.name = some s)
    (hnd : (cmd.flags.map FlagSpec.name).Nodup)
    (hsno : s ∉ cmd.flags.map FlagSpec.name)
    (hinj : ∀ g ∈ cmd.flags, shortFor cmd.flagsMetadata g.name = some s → g.name = f.name)
    (hnosh : ∀ g ∈ cmd.flags, g.name ≠ f.name →
      ¬ shortFor cmd.flagsMetadata g.name = some f.name)
    (hdeep : ∀ e2 ∈ post, ∀ g ∈ e2.cmd.flags,
      g.name ≠ f.name ∧ g.name ≠ s ∧
      ¬ shortFor e2.cmd.flagsMetadata g.name = some f.name ∧
      ¬ shortFor e2.cmd.flagsMetadata g.name = some s)
    (st : Store) (v : String) :
    flagValue (pre ++ ⟨idp, cmd⟩ :: post) (setFlagByKey (pre ++ ⟨idp, cmd⟩ :: post) st s v)
      f.name = some v ∧
    flagValue (pre ++ ⟨idp, cmd⟩ :: post) (setFlagByKey (pre ++ ⟨idp, cmd⟩ :: post) st f.name v)
      s = some v := by
  have hperm := sortFlags_perm cmd.flags
  have hpermn := hperm.map FlagSpec.name
  have hrev : (pre ++ ⟨idp, cmd⟩ :: post : List PathEntry).reverse =
      post.reverse ++ ⟨idp, cmd⟩ :: pre.reverse := by
    simp [List.reverse_append]
  have hcomb : combineFlags (pre ++ ⟨idp, cmd⟩ :: post) =
      pre.reverse.foldl addCmdFlags
        (addCmdFlags (post.reverse.foldl addCmdFlags []) ⟨idp, cmd⟩) := by
    rw [combineFlags, hrev, List.foldl_append, List.foldl_cons]
  have hKfA : hasKey (post.reverse.foldl addCmdFlags []) f.name = false := by
    apply hasKey_foldl_addCmd_false post.reverse [] f.name rfl
    intro e2 he2 g hg
    have h3 := hdeep e2 (List.mem_reverse.mp he2) g hg
    exact ⟨h3.1, h3.2.2.1⟩
  have hKsA : hasKey (post.reverse.foldl addCmdFlags []) s = false := by
    apply hasKey_foldl_addCmd_false post.reverse [] s rfl
    intro e2 he2 g hg
    have h3 := hdeep e2 (List.mem_reverse.mp he2) g hg
    exact ⟨h3.2.1, h3.2.2.2⟩
  have hmain := fold_lookup_alias idp cmd.flagsMetadata (sortFlags cmd.flags)
    (post.reverse.foldl addCmdFlags []) f s
    (hperm.mem_iff.mpr hf) hs
    (hpermn.nodup_iff.mpr hnd)
    (fun hmem => hsno (hpermn.mem_iff.mp hmem))
    (fun g hg => hinj g (hperm.mem_iff.mp hg))
    (fun g hg => hnosh g (hperm.mem_iff.mp hg))
    hKfA hKsA
  have hmid : addCmdFlags (post.reverse.foldl addCmdFlags []) ⟨idp, cmd⟩ =
      (sortFlags cmd.flags).foldl (addOneFlag idp cmd.flagsMetadata)
        (post.reverse.foldl addCmdFlags []) := rfl
  rw [← hmid] at hmain
  obtain ⟨hlong, hshort⟩ := hmain
  have hlongP : lookupCombined (combineFlags (pre ++ ⟨idp, cmd⟩ :: post)) f.name =
      some ⟨f.name, idp, f.name, f.isBool, f.defValue⟩ := by
    rw [hcomb, lookupCombined_foldl_addCmd_of_isSome _ _ _ (by rw [hlong]; rfl), hlong]
  have hshortP : lookupCombined (combineFlags (pre ++ ⟨idp, cmd⟩ :: post)) s =
      some ⟨s, idp, f.name, f.isBool, f.defValue⟩ := by
    rw [hcomb, lookupCombined_foldl_addCmd_of_isSome _ _ _ (by rw [hshort]; rfl), hshort]
  constructor
  · simp [flagValue, setFlagByKey, hlongP, hshortP, storeGet_storeSet_self]
  · simp [flagValue, setFlagByKey, hlongP, hshortP, storeGet_storeSet_self]

/-- Witness for C7 (amended) on a two-command path: the root's inherited
`output`/`o` pair stays a shared cell above the non-colliding child. -/
theorem short_alias_shared_cell_witness :
    (⟨"output", "", false⟩ ∈ inheritRoot.flags ∧
      shortFor inheritRoot.flagsMetadata "output" = some "o" ∧
      (inheritRoot.flags.map FlagSpec.name).Nodup ∧
      "o" ∉ inheritRoot.flags.map FlagSpec.name ∧
      (∀ e2 ∈ [(⟨["app", "sub"], inheritChild⟩ : PathEntry)], ∀ g ∈ e2.cmd.flags,
        g.name ≠ "output" ∧ g.name ≠ "o" ∧
        ¬ shortFor e2.cmd.flagsMetadata g.name = some "output" ∧
        ¬ shortFor e2.cmd.flagsMetadata g.name = some "o")) ∧
    (flagValue inheritPath (setFlagByKey inheritPath [] "o" "x") "output" = some "x" ∧
      flagValue inheritPath (setFlagByKey inheritPath [] "output" "x") "o" = some "x") :=
  ⟨⟨by decide, by decide, by decide, by decide, by decide⟩,
    short_alias_shared_cell [] [⟨["app", "sub"], inheritChild⟩] ["app"] inheritRoot
      ⟨"output", "", false⟩ "o" (by decide) (by decide) (by decide) (by decide)
      (by decide) (by decide) (by decide) [] "x"⟩

/-- Witness for C6 on the concrete tree and tokens. -/
theorem help_sentinel_after_resolution_witness :
    (validateCommands plainRoot [] = .ok () ∧
      (resolveLoop [rootEntry plainRoot] (rootEntry plainRoot)
          (splitAtDelimiter ["--help"]).1).2.2 = none ∧
      ((splitAtDelimiter ["--help"]).1.any
        (fun a => a == "-h" || a == "--h" || a == "-help" || a == "--help")) = true) ∧
    (Parse plainRoot initState ["--help"]).1 = .error .help :=
  ⟨⟨by decide, by decide, by decide⟩,
    help_sentinel_after_resolution.1 plainRoot initState ["--help"]
      (by decide) (by decide) (by decide)⟩

end CLI
